import Mathlib

/-!
Verification of the filtering-and-sorting engine of the AIJobs job-listing
browser, a shallow embedding of the function `applyFiltersAndSort` from
`src/App.js` (lines 99-173).

Modelling conventions:
- JavaScript strings are `String`; optional record fields are `Option String`.
- JavaScript truthiness of a string is nonemptiness; the empty string is falsy.
- `parseInt` applied to the digit-stripped salary string yields a JS number
  that is NaN when the stripped string is empty; we model such a NaN-able
  number as `Option Nat` with `none` standing for NaN.
- `Array.prototype.sort` with the code's numeric comparators is modelled by a
  stable insertion sort `jsSort`; the ECMAScript `SortCompare` step maps a
  comparator result of NaN to `+0` (a tie), which the model reproduces by
  making the comparators return `0` whenever a parsed salary is NaN.
- `String.prototype.localeCompare` is an external, locale-dependent collation;
  it is modelled as an abstract comparator parameter `lc`.
All definitions are total computable functions, so the embedded engine is
total over its input domain by construction.
-/

/-- A job record as consumed by the engine (spec section 3). -/
structure Job where
  title : String
  description : String
  department : Option String
  companyName : String
  location : String
  remote : Bool
  salary : Option String
deriving DecidableEq

/-- The filter state owned by the view (spec section 3). -/
structure FilterState where
  companies : List String
  locations : List String
  departments : List String
  remote : Bool
  salary : Nat × Nat
deriving DecidableEq

/-- The default filter state: empty facet sets, remote off, salary range 0..500000. -/
def defaultFilters : FilterState := ⟨[], [], [], false, (0, 500000)⟩

/-- Character-wise lowercasing, modelling `String.prototype.toLowerCase`. -/
def lowerStr (s : String) : String := String.mk (s.data.map Char.toLower)

/-- Decides whether the first list is an initial segment of the second. -/
def charsLeadQ : List Char → List Char → Bool
  | [], _ => true
  | _ :: _, [] => false
  | a :: as, b :: bs => a == b && charsLeadQ as bs

/-- Decides whether `sub` occurs contiguously inside `l`. -/
def charsInsideQ (sub : List Char) : List Char → Bool
  | [] => sub.isEmpty
  | b :: bs => charsLeadQ sub (b :: bs) || charsInsideQ sub bs

/-- Models `hay.includes(sub)` on JavaScript strings. -/
def strIncludes (hay sub : String) : Bool := charsInsideQ sub.data hay.data

/-- Models `s.replace(/[^0-9]/g, '')`: keep only the ASCII digits of `s`. -/
def stripDigits (s : String) : String := String.mk (s.data.filter (fun c => c.isDigit))

/-- Evaluates a string of ASCII digits as a decimal natural number, the way
`parseInt` evaluates an all-digit string. -/
def digitsToNat (s : String) : Nat := s.data.foldl (fun acc c => acc * 10 + (c.toNat - 48)) 0

/-- Models `job.salary ? parseInt(job.salary.replace(/[^0-9]/g, '')) : 0`:
an absent or empty (falsy) salary yields the number `0`; a nonempty salary is
digit-stripped and parsed, and `parseInt` of an empty digit run is NaN,
modelled as `none`. -/
def parseSalaryNum : Option String → Option Nat
  | none => some 0
  | some s =>
      if s = "" then some 0
      else
        let d := stripDigits s
        if d = "" then none else some (digitsToNat d)

/-- The salary number of a job with NaN collapsed to 0; used only to state
ordering properties, never inside the engine. -/
def salaryKeyD (j : Job) : Nat := (parseSalaryNum j.salary).getD 0

/-- The body of the salary filter (App.js lines 141-144): NaN fails both
comparisons, so a NaN salary never matches. -/
def salaryMatch (mn mx : Nat) (j : Job) : Bool :=
  match parseSalaryNum j.salary with
  | none => false
  | some v => decide (mn ≤ v) && decide (v ≤ mx)

/-- The search predicate body (App.js lines 105-109); `query` arrives already
lowercased.  An absent or empty department contributes `false`. -/
def searchMatch (query : String) (j : Job) : Bool :=
  strIncludes (lowerStr j.title) query ||
  strIncludes (lowerStr j.description) query ||
  (match j.department with
   | none => false
   | some d => if d = "" then false else strIncludes (lowerStr d) query)

/-- The location predicate body (App.js lines 119-125). -/
def locationMatch (ls : List String) (j : Job) : Bool :=
  ls.any (fun fl => strIncludes (lowerStr j.location) (lowerStr fl))

/-- The department predicate body (App.js line 130); an absent or empty
(falsy) department fails. -/
def departmentMatch (ds : List String) (j : Job) : Bool :=
  match j.department with
  | none => false
  | some d => if d = "" then false else ds.contains d

/-- The filtering stage of `applyFiltersAndSort` (App.js lines 100-145): the
six conditional `filter` passes in source order. -/
def applyFilters (jobs : List Job) (f : FilterState) (q : String) : List Job :=
  let l1 := if q = "" then jobs else jobs.filter (searchMatch (lowerStr q))
  let l2 := if f.companies.isEmpty then l1
            else l1.filter (fun j => f.companies.contains j.companyName)
  let l3 := if f.locations.isEmpty then l2 else l2.filter (locationMatch f.locations)
  let l4 := if f.departments.isEmpty then l3 else l3.filter (departmentMatch f.departments)
  let l5 := if f.remote then l4.filter (fun j => j.remote) else l4
  if 0 < f.salary.1 ∨ f.salary.2 < 500000 then
    l5.filter (salaryMatch f.salary.1 f.salary.2)
  else l5

/-- Inserts `x` behind every element it does not strictly beat: the position a
stable sort gives the most recently considered element. -/
def insAfter {α : Type} (c : α → α → Int) (x : α) : List α → List α
  | [] => [x]
  | y :: ys => if c y x ≤ 0 then y :: insAfter c x ys else x :: y :: ys

/-- Stable insertion sort driven by a JS-style three-way comparator; models
`Array.prototype.sort(comparator)` (stable since ES2019). -/
def jsSort {α : Type} (c : α → α → Int) (l : List α) : List α :=
  l.foldl (fun acc x => insAfter c x acc) []

/-- The `salary-high-low` comparator (App.js lines 154-158): `salaryB -
salaryA` on NaN-able numbers, with a NaN comparator result mapped to a tie by
ECMAScript `SortCompare`. -/
def cmpHighLow (a b : Job) : Int :=
  match parseSalaryNum b.salary, parseSalaryNum a.salary with
  | some kb, some ka => (kb : Int) - (ka : Int)
  | _, _ => 0

/-- The `salary-low-high` comparator (App.js lines 161-165). -/
def cmpLowHigh (a b : Job) : Int :=
  match parseSalaryNum a.salary, parseSalaryNum b.salary with
  | some ka, some kb => (ka : Int) - (kb : Int)
  | _, _ => 0

/-- The sorting stage (App.js lines 148-170): a switch over the sort-option
string whose default (and the falsy empty string) leaves the list unchanged.
`lc` models `String.prototype.localeCompare`. -/
def applySort (lc : String → String → Int) (so : String) (l : List Job) : List Job :=
  if so = "" then l
  else if so = "alphabetical" then jsSort (fun a b => lc a.title b.title) l
  else if so = "salary-high-low" then jsSort cmpHighLow l
  else if so = "salary-low-high" then jsSort cmpLowHigh l
  else l

/-- The whole engine `applyFiltersAndSort` (App.js lines 99-173): shallow-copy
the input, run the six conditional filters, then sort. -/
def applyFiltersAndSort (jobs : List Job) (f : FilterState) (q : String)
    (so : String) (lc : String → String → Int) : List Job :=
  applySort lc so (applyFilters jobs f q)

/-- The search pass as a single predicate: inactive (empty query) lets every
job through. -/
def searchPasses (q : String) (j : Job) : Bool :=
  if q = "" then true else searchMatch (lowerStr q) j

/-- The company pass as a single predicate. -/
def companyPasses (f : FilterState) (j : Job) : Bool :=
  if f.companies.isEmpty then true else f.companies.contains j.companyName

/-- The location pass as a single predicate. -/
def locationPasses (f : FilterState) (j : Job) : Bool :=
  if f.locations.isEmpty then true else locationMatch f.locations j

/-- The department pass as a single predicate. -/
def departmentPasses (f : FilterState) (j : Job) : Bool :=
  if f.departments.isEmpty then true else departmentMatch f.departments j

/-- The remote pass as a single predicate. -/
def remotePasses (f : FilterState) (j : Job) : Bool :=
  if f.remote then j.remote else true

/-- The salary pass as a single predicate, active exactly when the range
differs downward from the default bounds. -/
def salaryPasses (f : FilterState) (j : Job) : Bool :=
  if 0 < f.salary.1 ∨ f.salary.2 < 500000 then
    salaryMatch f.salary.1 f.salary.2 j
  else true

/-- The conjunction of the six category passes, as the spec states the
filtering semantics. -/
def passesAll (f : FilterState) (q : String) (j : Job) : Bool :=
  searchPasses q j && companyPasses f j && locationPasses f j &&
  departmentPasses f j && remotePasses f j && salaryPasses f j

/-- The six category passes as a list, in the order the source applies them. -/
def predList (f : FilterState) (q : String) : List (Job → Bool) :=
  [searchPasses q, companyPasses f, locationPasses f,
   departmentPasses f, remotePasses f, salaryPasses f]

/-- Modelled from the spec: the claims' salary key, under which an absent OR
unparsable salary is the number 0 rather than NaN.  Used only to refute the
claims that attribute this semantics to the code. -/
def claimSalaryKey (j : Job) : Nat :=
  match j.salary with
  | none => 0
  | some s => digitsToNat (stripDigits s)

/-- Modelled from the spec: the `salary-high-low` comparator the claims
describe, keyed by `claimSalaryKey`. -/
def cmpHighLowClaim (a b : Job) : Int :=
  (claimSalaryKey b : Int) - (claimSalaryKey a : Int)

/-- Example job: parseable salary 100000. -/
def jobHund : Job :=
  ⟨"Engineer", "Builds systems", some "Engineering", "Acme", "New York, NY",
   false, some "$100,000"⟩

/-- Example job: parseable salary 50000, remote. -/
def jobFifty : Job :=
  ⟨"Analyst", "Studies data", some "Finance", "Globex", "San Francisco, CA",
   true, some "$50,000"⟩

/-- Example job: present, nonempty, digitless salary, i.e. a NaN parse. -/
def jobND : Job :=
  ⟨"Intern", "Helps out", none, "Acme", "Remote", true, some "TBD"⟩

/-- Example job: present but empty salary string, which is falsy in JS. -/
def jobEmptySal : Job :=
  ⟨"Clerk", "Files things", some "Operations", "Initech", "Austin, TX",
   false, some ""⟩

/-- Example job: parseable salary 700000, above the default upper bound. -/
def job700k : Job :=
  ⟨"Director", "Leads teams", some "Engineering", "Acme", "New York, NY",
   false, some "$700,000"⟩

/-- Example filter state: salary range narrowed to 0..100000 (active). -/
def fNarrow : FilterState := ⟨[], [], [], false, (0, 100000)⟩

/-- Example filter state: salary range widened to 0..600000, which the guard
at App.js line 139 treats as inactive. -/
def f600 : FilterState := ⟨[], [], [], false, (0, 600000)⟩

/-- A concrete consistent comparator standing in for `localeCompare` in
witnesses: compare strings by length. -/
def lcLen : String → String → Int := fun s t => (s.length : Int) - (t.length : Int)

/-- Filtering by the constantly true predicate is the identity. -/
theorem filter_tt {α : Type} (l : List α) : l.filter (fun _ => true) = l := by
  induction l with
  | nil => rfl
  | cons a t ih => simp [List.filter, ih]

/-- Two consecutive filters combine into one filter by the conjunction. -/
theorem filter_comp {α : Type} (p q : α → Bool) (l : List α) :
    (l.filter p).filter q = l.filter (fun x => p x && q x) := by
  induction l with
  | nil => rfl
  | cons a t ih =>
      by_cases hp : p a = true <;> by_cases hq : q a = true <;>
        simp [List.filter_cons, hp, hq, ih]

/-- A conditional filter equals an unconditional filter by the guarded pass. -/
theorem stage_search (jobs : List Job) (q : String) :
    (if q = "" then jobs else jobs.filter (searchMatch (lowerStr q)))
      = jobs.filter (searchPasses q) := by
  by_cases hq : q = ""
  · have : (searchPasses q) = fun _ => true := by
      funext j; simp [searchPasses, hq]
    rw [if_pos hq, this, filter_tt]
  · simp only [if_neg hq]
    exact List.filter_congr (fun j _ => by simp [searchPasses, hq])

/-- The company stage as an unconditional filter. -/
theorem stage_company (l : List Job) (f : FilterState) :
    (if f.companies.isEmpty then l
     else l.filter (fun j => f.companies.contains j.companyName))
      = l.filter (companyPasses f) := by
  by_cases hc : f.companies.isEmpty = true
  · have : (companyPasses f) = fun _ => true := by
      funext j; simp [companyPasses, hc]
    rw [if_pos hc, this, filter_tt]
  · simp only [if_neg hc]
    exact List.filter_congr (fun j _ => by simp [companyPasses, hc])

/-- The location stage as an unconditional filter. -/
theorem stage_location (l : List Job) (f : FilterState) :
    (if f.locations.isEmpty then l else l.filter (locationMatch f.locations))
      = l.filter (locationPasses f) := by
  by_cases hc : f.locations.isEmpty = true
  · have : (locationPasses f) = fun _ => true := by
      funext j; simp [locationPasses, hc]
    rw [if_pos hc, this, filter_tt]
  · simp only [if_neg hc]
    exact List.filter_congr (fun j _ => by simp [locationPasses, hc])

/-- The department stage as an unconditional filter. -/
theorem stage_department (l : List Job) (f : FilterState) :
    (if f.departments.isEmpty then l else l.filter (departmentMatch f.departments))
      = l.filter (departmentPasses f) := by
  by_cases hc : f.departments.isEmpty = true
  · have : (departmentPasses f) = fun _ => true := by
      funext j; simp [departmentPasses, hc]
    rw [if_pos hc, this, filter_tt]
  · simp only [if_neg hc]
    exact List.filter_congr (fun j _ => by simp [departmentPasses, hc])

/-- The remote stage as an unconditional filter. -/
theorem stage_remote (l : List Job) (f : FilterState) :
    (if f.remote then l.filter (fun j => j.remote) else l)
      = l.filter (remotePasses f) := by
  by_cases hc : f.remote = true
  · simp only [if_pos hc]
    exact List.filter_congr (fun j _ => by simp [remotePasses, hc])
  · simp only [if_neg hc]
    have : (remotePasses f) = fun _ => true := by
      funext j; simp [remotePasses, hc]
    rw [this, filter_tt]

/-- The salary stage as an unconditional filter. -/
theorem stage_salary (l : List Job) (f : FilterState) :
    (if 0 < f.salary.1 ∨ f.salary.2 < 500000 then
       l.filter (salaryMatch f.salary.1 f.salary.2)
     else l)
      = l.filter (salaryPasses f) := by
  by_cases hc : 0 < f.salary.1 ∨ f.salary.2 < 500000
  · simp only [if_pos hc]
    exact List.filter_congr (fun j _ => by simp [salaryPasses, hc])
  · simp only [if_neg hc]
    have : (salaryPasses f) = fun _ => true := by
      funext j; simp [salaryPasses, hc]
    rw [this, filter_tt]

/-- The source's conditional filter chain equals one filter by the conjunction
of the six category passes. -/
theorem applyFilters_eq (jobs : List Job) (f : FilterState) (q : String) :
    applyFilters jobs f q = jobs.filter (passesAll f q) := by
  show (let l1 := if q = "" then jobs else jobs.filter (searchMatch (lowerStr q))
        let l2 := if f.companies.isEmpty then l1
                  else l1.filter (fun j => f.companies.contains j.companyName)
        let l3 := if f.locations.isEmpty then l2 else l2.filter (locationMatch f.locations)
        let l4 := if f.departments.isEmpty then l3
                  else l3.filter (departmentMatch f.departments)
        let l5 := if f.remote then l4.filter (fun j => j.remote) else l4
        if 0 < f.salary.1 ∨ f.salary.2 < 500000 then
          l5.filter (salaryMatch f.salary.1 f.salary.2)
        else l5) = jobs.filter (passesAll f q)
  simp only []
  rw [stage_search, stage_company, stage_location, stage_department,
      stage_remote, stage_salary, filter_comp, filter_comp, filter_comp,
      filter_comp, filter_comp]
  exact List.filter_congr (fun j _ => by simp [passesAll, Bool.and_assoc])

/-- Inserting with `insAfter` is a permutation of consing. -/
theorem insAfter_perm {α : Type} (c : α → α → Int) (x : α) :
    ∀ l : List α, (insAfter c x l).Perm (x :: l) := by
  intro l
  induction l with
  | nil => simp [insAfter]
  | cons y ys ih =>
      by_cases h : c y x ≤ 0
      · simp only [insAfter, if_pos h]
        exact (ih.cons y).trans (List.Perm.swap x y ys)
      · simp [insAfter, if_neg h]

/-- Membership in an `insAfter` insertion. -/
theorem mem_insAfter {α : Type} (c : α → α → Int) (x z : α) (l : List α) :
    z ∈ insAfter c x l ↔ z = x ∨ z ∈ l := by
  rw [(insAfter_perm c x l).mem_iff]
  simp

/-- Inserting preserves sortedness under the comparator, assuming the two
comparator laws that hold for all the engine's comparators: a strict win one
way is a weak win the other way, and a strict win transfers across weak wins. -/
theorem insAfter_pairwise {α : Type} {c : α → α → Int}
    (hA : ∀ a b, 0 < c a b → c b a ≤ 0)
    (hB : ∀ a b d, 0 < c a b → c a d ≤ 0 → c b d ≤ 0)
    (x : α) :
    ∀ l : List α, l.Pairwise (fun a b => c a b ≤ 0) →
      (insAfter c x l).Pairwise (fun a b => c a b ≤ 0) := by
  intro l
  induction l with
  | nil => intro _; simp [insAfter]
  | cons y ys ih =>
      intro hp
      rcases List.pairwise_cons.mp hp with ⟨hy, hys⟩
      by_cases h : c y x ≤ 0
      · simp only [insAfter, if_pos h]
        refine List.pairwise_cons.mpr ⟨?_, ih hys⟩
        intro z hz
        rcases (mem_insAfter c x z ys).mp hz with rfl | hzys
        · exact h
        · exact hy z hzys
      · have hyx : 0 < c y x := by omega
        simp only [insAfter, if_neg h]
        refine List.pairwise_cons.mpr ⟨?_, hp⟩
        intro z hz
        rcases List.mem_cons.mp hz with rfl | hzys
        · exact hA _ _ hyx
        · exact hB _ _ _ hyx (hy _ hzys)

/-- Inserting an element that a predicate rejects does not change the
predicate's filtrate. -/
theorem filter_insAfter_neg {α : Type} (c : α → α → Int) (p : α → Bool)
    (x : α) (hpx : p x = false) :
    ∀ l : List α, (insAfter c x l).filter p = l.filter p := by
  intro l
  induction l with
  | nil => simp [insAfter, hpx]
  | cons y ys ih =>
      by_cases h : c y x ≤ 0
      · simp only [insAfter, if_pos h, List.filter_cons]
        cases hy : p y <;> simp [hy, ih]
      · simp [insAfter, if_neg h, List.filter_cons, hpx]

/-- Inserting an element of an equivalence class into a sorted list appends it
behind the class members already present: the heart of stability.  The class
predicate `p` must select exactly one comparator tie class (`hz`), and a
strict win against one class member must be a strict win against all (`hF`). -/
theorem filter_insAfter_pos {α : Type} {c : α → α → Int} {p : α → Bool}
    (hz : ∀ a b, p a = true → p b = true → c a b = 0)
    (hF : ∀ y a b, p a = true → p b = true → 0 < c y a → 0 < c y b)
    (x : α) (hpx : p x = true) :
    ∀ l : List α, l.Pairwise (fun a b => c a b ≤ 0) →
      (insAfter c x l).filter p = l.filter p ++ [x] := by
  intro l
  induction l with
  | nil => simp [insAfter, hpx]
  | cons y ys ih =>
      intro hp
      rcases List.pairwise_cons.mp hp with ⟨hy, hys⟩
      by_cases h : c y x ≤ 0
      · simp only [insAfter, if_pos h, List.filter_cons]
        cases hyp : p y <;> simp [hyp, ih hys]
      · have hyx : 0 < c y x := by omega
        have hfy : ∀ z ∈ y :: ys, ¬ p z = true := by
          intro z hzmem hpz
          rcases List.mem_cons.mp hzmem with rfl | hzys
          · exact absurd (hz z x hpz hpx) (by omega)
          · exact absurd (hy z hzys) (by
              have := hF y x z hpx hpz hyx
              omega)
        have hins : insAfter c x (y :: ys) = x :: y :: ys := by
          simp [insAfter, if_neg h]
        rw [hins, List.filter_cons_of_pos hpx, List.filter_eq_nil_iff.mpr hfy]
        simp

/-- The sorting loop permutes: folding insertions over `l` starting from `acc`
yields a permutation of `l ++ acc`. -/
theorem sortLoop_perm {α : Type} (c : α → α → Int) :
    ∀ (l acc : List α),
      (l.foldl (fun a x => insAfter c x a) acc).Perm (l ++ acc) := by
  intro l
  induction l with
  | nil => intro acc; simp
  | cons x xs ih =>
      intro acc
      have h1 := ih (insAfter c x acc)
      have h2 : (xs ++ insAfter c x acc).Perm (xs ++ x :: acc) :=
        List.Perm.append_left xs (insAfter_perm c x acc)
      have h3 : (xs ++ x :: acc).Perm (x :: (xs ++ acc)) := List.perm_middle
      simpa using (h1.trans h2).trans h3

/-- The sorting loop keeps the accumulator sorted. -/
theorem sortLoop_pairwise {α : Type} {c : α → α → Int}
    (hA : ∀ a b, 0 < c a b → c b a ≤ 0)
    (hB : ∀ a b d, 0 < c a b → c a d ≤ 0 → c b d ≤ 0) :
    ∀ (l acc : List α), acc.Pairwise (fun a b => c a b ≤ 0) →
      (l.foldl (fun a x => insAfter c x a) acc).Pairwise (fun a b => c a b ≤ 0) := by
  intro l
  induction l with
  | nil => intro acc h; simpa using h
  | cons x xs ih =>
      intro acc h
      exact ih (insAfter c x acc) (insAfter_pairwise hA hB x acc h)

/-- The sorting loop preserves each comparator tie class in order: the
filtrate of the result is the filtrate of the accumulator followed by the
filtrate of the remaining input. -/
theorem sortLoop_filter {α : Type} {c : α → α → Int} {p : α → Bool}
    (hA : ∀ a b, 0 < c a b → c b a ≤ 0)
    (hB : ∀ a b d, 0 < c a b → c a d ≤ 0 → c b d ≤ 0)
    (hz : ∀ a b, p a = true → p b = true → c a b = 0)
    (hF : ∀ y a b, p a = true → p b = true → 0 < c y a → 0 < c y b) :
    ∀ (l acc : List α), acc.Pairwise (fun a b => c a b ≤ 0) →
      (l.foldl (fun a x => insAfter c x a) acc).filter p
        = acc.filter p ++ l.filter p := by
  intro l
  induction l with
  | nil => intro acc _; simp
  | cons x xs ih =>
      intro acc h
      have hrec := ih (insAfter c x acc) (insAfter_pairwise hA hB x acc h)
      cases hpx : p x
      · rw [List.foldl_cons, hrec, filter_insAfter_neg c p x hpx acc,
            List.filter_cons_of_neg (by simp [hpx])]
      · rw [List.foldl_cons, hrec, filter_insAfter_pos hz hF x hpx acc h,
            List.filter_cons_of_pos hpx]
        simp

/-- `jsSort` permutes its input. -/
theorem jsSort_perm {α : Type} (c : α → α → Int) (l : List α) :
    (jsSort c l).Perm l := by
  simpa using sortLoop_perm c l []

/-- `jsSort` sorts with respect to its comparator, given the two comparator
laws. -/
theorem jsSort_pairwise {α : Type} {c : α → α → Int}
    (hA : ∀ a b, 0 < c a b → c b a ≤ 0)
    (hB : ∀ a b d, 0 < c a b → c a d ≤ 0 → c b d ≤ 0)
    (l : List α) : (jsSort c l).Pairwise (fun a b => c a b ≤ 0) :=
  sortLoop_pairwise hA hB l [] (List.Pairwise.nil)

/-- `jsSort` is stable: it preserves each comparator tie class as a
subsequence, in input order. -/
theorem jsSort_filter {α : Type} {c : α → α → Int} {p : α → Bool}
    (hA : ∀ a b, 0 < c a b → c b a ≤ 0)
    (hB : ∀ a b d, 0 < c a b → c a d ≤ 0 → c b d ≤ 0)
    (hz : ∀ a b, p a = true → p b = true → c a b = 0)
    (hF : ∀ y a b, p a = true → p b = true → 0 < c y a → 0 < c y b)
    (l : List α) : (jsSort c l).filter p = l.filter p := by
  simpa using sortLoop_filter hA hB hz hF l [] (List.Pairwise.nil)

/-- Law A for the high-to-low salary comparator: a strict win reverses to a
weak loss, NaN ties included. -/
theorem cmpHighLow_A : ∀ a b : Job, 0 < cmpHighLow a b → cmpHighLow b a ≤ 0 := by
  intro a b
  cases h1 : parseSalaryNum a.salary <;> cases h2 : parseSalaryNum b.salary <;>
    simp [cmpHighLow, h1, h2] <;> omega

/-- Law B for the high-to-low salary comparator. -/
theorem cmpHighLow_B :
    ∀ a b d : Job, 0 < cmpHighLow a b → cmpHighLow a d ≤ 0 → cmpHighLow b d ≤ 0 := by
  intro a b d
  cases h1 : parseSalaryNum a.salary <;> cases h2 : parseSalaryNum b.salary <;>
    cases h3 : parseSalaryNum d.salary <;> simp [cmpHighLow, h1, h2, h3] <;> omega

/-- Law A for the low-to-high salary comparator. -/
theorem cmpLowHigh_A : ∀ a b : Job, 0 < cmpLowHigh a b → cmpLowHigh b a ≤ 0 := by
  intro a b
  cases h1 : parseSalaryNum a.salary <;> cases h2 : parseSalaryNum b.salary <;>
    simp [cmpLowHigh, h1, h2] <;> omega

/-- Law B for the low-to-high salary comparator. -/
theorem cmpLowHigh_B :
    ∀ a b d : Job, 0 < cmpLowHigh a b → cmpLowHigh a d ≤ 0 → cmpLowHigh b d ≤ 0 := by
  intro a b d
  cases h1 : parseSalaryNum a.salary <;> cases h2 : parseSalaryNum b.salary <;>
    cases h3 : parseSalaryNum d.salary <;> simp [cmpLowHigh, h1, h2, h3] <;> omega

/-- Jobs with the same parsed-salary value tie under the high-to-low
comparator. -/
theorem cmpHighLow_class (v : Option Nat) :
    ∀ a b : Job, (decide (parseSalaryNum a.salary = v)) = true →
      (decide (parseSalaryNum b.salary = v)) = true → cmpHighLow a b = 0 := by
  intro a b ha hb
  rw [decide_eq_true_eq] at ha hb
  cases v with
  | none => simp [cmpHighLow, ha, hb]
  | some k => simp [cmpHighLow, ha, hb]

/-- A strict win against one member of a parsed-salary class is a strict win
against every member, under the high-to-low comparator. -/
theorem cmpHighLow_F (v : Option Nat) :
    ∀ y a b : Job, (decide (parseSalaryNum a.salary = v)) = true →
      (decide (parseSalaryNum b.salary = v)) = true →
      0 < cmpHighLow y a → 0 < cmpHighLow y b := by
  intro y a b ha hb hlt
  rw [decide_eq_true_eq] at ha hb
  have hab : parseSalaryNum b.salary = parseSalaryNum a.salary := by rw [ha, hb]
  cases h1 : parseSalaryNum y.salary <;> cases h2 : parseSalaryNum a.salary <;>
    simp [cmpHighLow, h1, h2] at hlt
  rw [h2] at hab
  simp [cmpHighLow, h1, hab]
  omega

/-- Jobs with the same parsed-salary value tie under the low-to-high
comparator. -/
theorem cmpLowHigh_class (v : Option Nat) :
    ∀ a b : Job, (decide (parseSalaryNum a.salary = v)) = true →
      (decide (parseSalaryNum b.salary = v)) = true → cmpLowHigh a b = 0 := by
  intro a b ha hb
  rw [decide_eq_true_eq] at ha hb
  cases v with
  | none => simp [cmpLowHigh, ha, hb]
  | some k => simp [cmpLowHigh, ha, hb]

/-- A strict win against one member of a parsed-salary class is a strict win
against every member, under the low-to-high comparator. -/
theorem cmpLowHigh_F (v : Option Nat) :
    ∀ y a b : Job, (decide (parseSalaryNum a.salary = v)) = true →
      (decide (parseSalaryNum b.salary = v)) = true →
      0 < cmpLowHigh y a → 0 < cmpLowHigh y b := by
  intro y a b ha hb hlt
  rw [decide_eq_true_eq] at ha hb
  have hab : parseSalaryNum b.salary = parseSalaryNum a.salary := by rw [ha, hb]
  cases h1 : parseSalaryNum y.salary <;> cases h2 : parseSalaryNum a.salary <;>
    simp [cmpLowHigh, h1, h2] at hlt
  rw [h2] at hab
  simp [cmpLowHigh, h1, hab]
  omega

/-- The sort stage at the `salary-high-low` option. -/
theorem applySort_hl (lc : String → String → Int) (l : List Job) :
    applySort lc "salary-high-low" l = jsSort cmpHighLow l := by
  unfold applySort
  rw [if_neg (by decide), if_neg (by decide), if_pos rfl]

/-- The sort stage at the `salary-low-high` option. -/
theorem applySort_lh (lc : String → String → Int) (l : List Job) :
    applySort lc "salary-low-high" l = jsSort cmpLowHigh l := by
  unfold applySort
  rw [if_neg (by decide), if_neg (by decide), if_neg (by decide), if_pos rfl]

/-- The sort stage at the `alphabetical` option. -/
theorem applySort_alpha (lc : String → String → Int) (l : List Job) :
    applySort lc "alphabetical" l = jsSort (fun a b => lc a.title b.title) l := by
  unfold applySort
  rw [if_neg (by decide), if_pos rfl]

/-- The sort stage is the identity at the empty and at every unrecognised
sort-option string. -/
theorem applySort_other (lc : String → String → Int) (so : String)
    (h1 : so ≠ "alphabetical") (h2 : so ≠ "salary-high-low")
    (h3 : so ≠ "salary-low-high") (l : List Job) :
    applySort lc so l = l := by
  unfold applySort
  by_cases h0 : so = ""
  · rw [if_pos h0]
  · rw [if_neg h0, if_neg h1, if_neg h2, if_neg h3]

/-- Every branch of the sort stage permutes its input. -/
theorem applySort_perm (lc : String → String → Int) (so : String) (l : List Job) :
    (applySort lc so l).Perm l := by
  by_cases ha : so = "alphabetical"
  · rw [ha, applySort_alpha]; exact jsSort_perm _ l
  · by_cases hh : so = "salary-high-low"
    · rw [hh, applySort_hl]; exact jsSort_perm _ l
    · by_cases hl : so = "salary-low-high"
      · rw [hl, applySort_lh]; exact jsSort_perm _ l
      · rw [applySort_other lc so ha hh hl]

/-- Pairwise relations can be strengthened using membership. -/
theorem pairwise_mem_imp {α : Type} {R S : α → α → Prop} :
    ∀ {l : List α}, l.Pairwise R → (∀ a ∈ l, ∀ b ∈ l, R a b → S a b) →
      l.Pairwise S := by
  intro l hp
  induction hp with
  | nil => intro _; exact List.Pairwise.nil
  | cons hr _ ih =>
      intro hmem
      refine List.Pairwise.cons ?_ (ih ?_)
      · intro b hb
        exact hmem _ (List.mem_cons_self _ _) b (List.mem_cons_of_mem _ hb) (hr b hb)
      · intro a ha b hb hr2
        exact hmem a (List.mem_cons_of_mem _ ha) b (List.mem_cons_of_mem _ hb) hr2

/-- A sign-antisymmetric comparator sends ties to ties in both directions. -/
theorem lcZeroSym (lc : String → String → Int)
    (hasym : ∀ s t, lc s t < 0 ↔ 0 < lc t s) :
    ∀ s t, lc s t = 0 → lc t s = 0 := by
  intro s t h
  have h1 : ¬ 0 < lc t s := fun hc => by
    have := (hasym s t).mpr hc
    omega
  have h2 : ¬ lc t s < 0 := fun hc => by
    have := (hasym t s).mp hc
    omega
  omega

/-- Law A for the title comparator built from a locale comparison. -/
theorem lcCmp_A (lc : String → String → Int)
    (hasym : ∀ s t, lc s t < 0 ↔ 0 < lc t s) :
    ∀ a b : Job, 0 < lc a.title b.title → lc b.title a.title ≤ 0 := by
  intro a b h
  have := (hasym b.title a.title).mpr h
  omega

/-- Law B for the title comparator built from a locale comparison. -/
theorem lcCmp_B (lc : String → String → Int)
    (hasym : ∀ s t, lc s t < 0 ↔ 0 < lc t s)
    (htrans : ∀ s t u, lc s t ≤ 0 → lc t u ≤ 0 → lc s u ≤ 0) :
    ∀ a b d : Job, 0 < lc a.title b.title → lc a.title d.title ≤ 0 →
      lc b.title d.title ≤ 0 := by
  intro a b d hab had
  by_contra hbd
  have hdb : lc d.title b.title < 0 := (hasym d.title b.title).mpr (by omega)
  have := htrans a.title d.title b.title had (by omega)
  omega

/-- Jobs whose titles tie with a common reference string tie with each other. -/
theorem lcCmp_class (lc : String → String → Int)
    (hasym : ∀ s t, lc s t < 0 ↔ 0 < lc t s)
    (htrans : ∀ s t u, lc s t ≤ 0 → lc t u ≤ 0 → lc s u ≤ 0) (t : String) :
    ∀ a b : Job, (decide (lc a.title t = 0)) = true →
      (decide (lc b.title t = 0)) = true → lc a.title b.title = 0 := by
  intro a b ha hb
  rw [decide_eq_true_eq] at ha hb
  have htb : lc t b.title = 0 := lcZeroSym lc hasym _ _ hb
  have hta : lc t a.title = 0 := lcZeroSym lc hasym _ _ ha
  have h1 : lc a.title b.title ≤ 0 := htrans a.title t b.title (by omega) (by omega)
  have h2 : lc b.title a.title ≤ 0 := htrans b.title t a.title (by omega) (by omega)
  by_contra hne
  have : lc a.title b.title < 0 := by omega
  have := (hasym a.title b.title).mp this
  omega

/-- A strict title win against one member of a tie class is a strict win
against every member. -/
theorem lcCmp_F (lc : String → String → Int)
    (hasym : ∀ s t, lc s t < 0 ↔ 0 < lc t s)
    (htrans : ∀ s t u, lc s t ≤ 0 → lc t u ≤ 0 → lc s u ≤ 0) (t : String) :
    ∀ y a b : Job, (decide (lc a.title t = 0)) = true →
      (decide (lc b.title t = 0)) = true →
      0 < lc y.title a.title → 0 < lc y.title b.title := by
  intro y a b ha hb hya
  by_contra hyb
  have hba : lc b.title a.title = 0 := lcCmp_class lc hasym htrans t b a hb ha
  have := htrans y.title b.title a.title (by omega) (by omega)
  omega

/-- `List.all` is invariant under permutation. -/
theorem perm_all_eq {α : Type} (g : α → Bool) :
    ∀ {l1 l2 : List α}, l1.Perm l2 → l1.all g = l2.all g := by
  intro l1 l2 h
  induction h with
  | nil => rfl
  | cons x _ ih => simp [List.all_cons, ih]
  | swap x y l =>
      simp only [List.all_cons]
      rw [← Bool.and_assoc, ← Bool.and_assoc, Bool.and_comm (g y) (g x)]
  | trans _ _ ih1 ih2 => rw [ih1, ih2]

/-- Folding a list of filters is one filter by the conjunction of all of them. -/
theorem foldFilters_eq {α : Type} :
    ∀ (ps : List (α → Bool)) (l : List α),
      ps.foldl (fun acc p => acc.filter p) l
        = l.filter (fun x => ps.all (fun p => p x)) := by
  intro ps
  induction ps with
  | nil => intro l; simp [filter_tt]
  | cons p pt ih =>
      intro l
      rw [List.foldl_cons, ih (l.filter p), filter_comp]
      exact List.filter_congr (fun x _ => by simp [List.all_cons])

/-- The filtering stage returns the empty list on the empty job list. -/
theorem applyFilters_nil (f : FilterState) (q : String) :
    applyFilters [] f q = [] := by
  rw [applyFilters_eq]
  rfl

/-- The sort stage returns the empty list on the empty job list. -/
theorem applySort_nil (lc : String → String → Int) (so : String) :
    applySort lc so [] = [] := by
  have := applySort_perm lc so []
  exact List.Perm.eq_nil this

/-- C1: for every input jobs array, filter state and query, the filtering
stage equals one filter by the conjunction of the six category passes, so a
job is in the engine's output exactly when it is an input job satisfying
every active predicate (soundness and completeness). -/
theorem filters_sound_complete (jobs : List Job) (f : FilterState) (q so : String)
    (lc : String → String → Int) :
    applyFilters jobs f q = jobs.filter (passesAll f q) ∧
    ∀ j : Job, j ∈ applyFiltersAndSort jobs f q so lc ↔
      (j ∈ jobs ∧ passesAll f q j = true) := by
  refine ⟨applyFilters_eq jobs f q, ?_⟩
  intro j
  rw [applyFiltersAndSort, (applySort_perm lc so _).mem_iff, applyFilters_eq,
      List.mem_filter]

/-- C4: with the default filter state, the empty query and the empty sort
option, the engine returns the input list unchanged. -/
theorem default_identity (jobs : List Job) (lc : String → String → Int) :
    applyFiltersAndSort jobs defaultFilters "" "" lc = jobs := by
  rw [applyFiltersAndSort, applySort_other lc "" (by decide) (by decide) (by decide),
      applyFilters_eq]
  have h : passesAll defaultFilters "" = fun _ => true := by
    funext j
    simp [passesAll, searchPasses, companyPasses, locationPasses,
          departmentPasses, remotePasses, salaryPasses, defaultFilters]
  rw [h, filter_tt]

/-- C7: the embedded engine is a total function by construction; on the empty
jobs list it returns the empty list for every filter state, query and sort
option, and a job whose salary string has no digits is processed without
failure, both when it is kept (default filters, NaN-tie sort) and when the
active salary filter removes it. -/
theorem engine_total :
    (∀ (f : FilterState) (q so : String) (lc : String → String → Int),
        applyFiltersAndSort [] f q so lc = []) ∧
    applyFiltersAndSort [jobND] defaultFilters "" "salary-high-low" lcLen = [jobND] ∧
    applyFiltersAndSort [jobND] fNarrow "" "" lcLen = [] := by
  refine ⟨?_, by decide, by decide⟩
  intro f q so lc
  rw [applyFiltersAndSort, applyFilters_nil, applySort_nil]

/-- C9: the six category passes commute: folding any permutation of the pass
list over the input filters exactly like the implemented order. -/
theorem filters_commute (jobs : List Job) (f : FilterState) (q : String)
    (ps : List (Job → Bool)) (hp : ps.Perm (predList f q)) :
    ps.foldl (fun acc p => acc.filter p) jobs = applyFilters jobs f q := by
  rw [foldFilters_eq, applyFilters_eq]
  refine List.filter_congr (fun j _ => ?_)
  rw [perm_all_eq _ hp]
  simp [predList, passesAll, Bool.and_assoc]

/-- C9 witness: swapping the first two passes (company before search) on a
concrete job list yields the implemented result. -/
theorem filters_commute_witness :
    [companyPasses fNarrow, searchPasses "engineer", locationPasses fNarrow,
     departmentPasses fNarrow, remotePasses fNarrow,
     salaryPasses fNarrow].foldl (fun acc p => acc.filter p)
        [jobHund, jobFifty, jobND]
      = applyFilters [jobHund, jobFifty, jobND] fNarrow "engineer" :=
  filters_commute [jobHund, jobFifty, jobND] fNarrow "engineer" _
    (List.Perm.swap (searchPasses "engineer") (companyPasses fNarrow) _)

/-- C2 (amended): with sort option `salary-high-low` the output is descending
(and with `salary-low-high` ascending) by the parsed-salary key whenever no
surviving job has a present but digitless salary; each sort permutes the
filtered list; and both sorts are stable, preserving every parsed-salary tie
class in filtered order.  A missing salary sorts as key 0; a present but
digitless salary parses to NaN, which ties with every job instead of sorting
as key 0. -/
theorem salary_sort_spec (jobs : List Job) (f : FilterState) (q : String)
    (lc : String → String → Int)
    (hN : ∀ j ∈ applyFilters jobs f q, parseSalaryNum j.salary ≠ none) :
    (applyFiltersAndSort jobs f q "salary-high-low" lc).Pairwise
        (fun a b => salaryKeyD b ≤ salaryKeyD a) ∧
    (applyFiltersAndSort jobs f q "salary-low-high" lc).Pairwise
        (fun a b => salaryKeyD a ≤ salaryKeyD b) ∧
    (applyFiltersAndSort jobs f q "salary-high-low" lc).Perm (applyFilters jobs f q) ∧
    (applyFiltersAndSort jobs f q "salary-low-high" lc).Perm (applyFilters jobs f q) ∧
    (∀ v : Option Nat,
      (applyFiltersAndSort jobs f q "salary-high-low" lc).filter
          (fun j => decide (parseSalaryNum j.salary = v))
        = (applyFilters jobs f q).filter
            (fun j => decide (parseSalaryNum j.salary = v)) ∧
      (applyFiltersAndSort jobs f q "salary-low-high" lc).filter
          (fun j => decide (parseSalaryNum j.salary = v))
        = (applyFilters jobs f q).filter
            (fun j => decide (parseSalaryNum j.salary = v))) := by
  rw [applyFiltersAndSort, applyFiltersAndSort, applySort_hl, applySort_lh]
  refine ⟨?_, ?_, jsSort_perm _ _, jsSort_perm _ _, ?_⟩
  · have hp := jsSort_pairwise cmpHighLow_A cmpHighLow_B (applyFilters jobs f q)
    refine pairwise_mem_imp hp ?_
    intro a ha b hb hc
    have ha2 := hN a ((jsSort_perm cmpHighLow _).mem_iff.mp ha)
    have hb2 := hN b ((jsSort_perm cmpHighLow _).mem_iff.mp hb)
    cases hpa : parseSalaryNum a.salary with
    | none => exact absurd hpa ha2
    | some ka =>
        cases hpb : parseSalaryNum b.salary with
        | none => exact absurd hpb hb2
        | some kb =>
            simp only [cmpHighLow, hpa, hpb] at hc
            simp only [salaryKeyD, hpa, hpb, Option.getD_some]
            omega
  · have hp := jsSort_pairwise cmpLowHigh_A cmpLowHigh_B (applyFilters jobs f q)
    refine pairwise_mem_imp hp ?_
    intro a ha b hb hc
    have ha2 := hN a ((jsSort_perm cmpLowHigh _).mem_iff.mp ha)
    have hb2 := hN b ((jsSort_perm cmpLowHigh _).mem_iff.mp hb)
    cases hpa : parseSalaryNum a.salary with
    | none => exact absurd hpa ha2
    | some ka =>
        cases hpb : parseSalaryNum b.salary with
        | none => exact absurd hpb hb2
        | some kb =>
            simp only [cmpLowHigh, hpa, hpb] at hc
            simp only [salaryKeyD, hpa, hpb, Option.getD_some]
            omega
  · intro v
    exact ⟨jsSort_filter cmpHighLow_A cmpHighLow_B (cmpHighLow_class v)
             (cmpHighLow_F v) _,
           jsSort_filter cmpLowHigh_A cmpLowHigh_B (cmpLowHigh_class v)
             (cmpLowHigh_F v) _⟩

/-- C2 witness: on two jobs with parseable salaries the high-to-low output is
descending by the parsed key. -/
theorem salary_sort_spec_witness :
    (applyFiltersAndSort [jobFifty, jobHund] defaultFilters ""
        "salary-high-low" lcLen).Pairwise
      (fun a b => salaryKeyD b ≤ salaryKeyD a) :=
  (salary_sort_spec [jobFifty, jobHund] defaultFilters "" lcLen (by decide)).1

/-- C2 counterexample: a present but digitless salary does not sort as key 0.
The code leaves the NaN-keyed job in front of a 100000-keyed job under
`salary-high-low` because their comparison is a tie, while the claimed
key-0 semantics would sort the 100000-keyed job first. -/
theorem salary_sort_cex :
    applyFiltersAndSort [jobND, jobHund] defaultFilters "" "salary-high-low" lcLen
      = [jobND, jobHund] ∧
    jsSort cmpHighLowClaim [jobND, jobHund] = [jobHund, jobND] ∧
    jobND ≠ jobHund := by decide

/-- C3 (amended): the parsed salary of a present, nonempty salary string with
at least one digit is the decimal value of its digit run, so that the dollar
format and the naive range concatenation parse as documented; an absent or
empty salary is the number 0; but a present, nonempty, digitless salary is
NaN rather than 0: it fails the salary-range predicate outright and ties with
every job in both salary sorts. -/
theorem salary_parse_spec :
    parseSalaryNum none = some 0 ∧
    parseSalaryNum (some "") = some 0 ∧
    parseSalaryNum (some "$90,000") = some 90000 ∧
    parseSalaryNum (some "90k-120k") = some 90120 ∧
    (∀ s : String, s ≠ "" → stripDigits s ≠ "" →
        parseSalaryNum (some s) = some (digitsToNat (stripDigits s))) ∧
    (∀ s : String, s ≠ "" → stripDigits s = "" → parseSalaryNum (some s) = none) ∧
    (∀ j : Job, parseSalaryNum j.salary = none →
        ∀ mn mx : Nat, salaryMatch mn mx j = false) ∧
    (∀ a b : Job, parseSalaryNum a.salary = none →
        cmpHighLow a b = 0 ∧ cmpHighLow b a = 0 ∧
        cmpLowHigh a b = 0 ∧ cmpLowHigh b a = 0) := by
  refine ⟨rfl, by decide, by decide, by decide, ?_, ?_, ?_, ?_⟩
  · intro s hs hd
    simp [parseSalaryNum, hs, hd]
  · intro s hs hd
    simp [parseSalaryNum, hs, hd]
  · intro j h mn mx
    simp [salaryMatch, h]
  · intro a b h
    cases h2 : parseSalaryNum b.salary <;>
      simp [cmpHighLow, cmpLowHigh, h, h2]

/-- C3 witness: a present salary with digits parses by the strip-then-read
rule. -/
theorem salary_parse_spec_witness :
    parseSalaryNum (some "$55k") = some (digitsToNat (stripDigits "$55k")) :=
  salary_parse_spec.2.2.2.2.1 "$55k" (by decide) (by decide)

/-- C3 counterexample: the claim says a digitless salary is treated as 0 in
the salary-range predicate; with the active range 0..100000 a key of 0 would
pass, yet the engine excludes the digitless-salary job. -/
theorem salary_parse_cex :
    claimSalaryKey jobND = 0 ∧
    fNarrow.salary.1 ≤ claimSalaryKey jobND ∧
    claimSalaryKey jobND ≤ fNarrow.salary.2 ∧
    applyFiltersAndSort [jobND] fNarrow "" "" lcLen = [] := by decide

/-- C5 (amended): the salary-range predicate is a no-op exactly when the
minimum is 0 and the maximum is at least 500000 — in particular for every
range wider than the default, not only for the default itself; when active, a
job passes exactly when its salary parses to a number v with min ≤ v ≤ max,
so a NaN salary never passes. -/
theorem salary_range_spec (f : FilterState) (j : Job) :
    (f.salary.1 = 0 ∧ 500000 ≤ f.salary.2 → salaryPasses f j = true) ∧
    ((0 < f.salary.1 ∨ f.salary.2 < 500000) →
      (salaryPasses f j = true ↔
        ∃ v, parseSalaryNum j.salary = some v ∧
          f.salary.1 ≤ v ∧ v ≤ f.salary.2)) := by
  constructor
  · rintro ⟨h1, h2⟩
    unfold salaryPasses
    rw [if_neg (by omega)]
  · intro hact
    unfold salaryPasses
    rw [if_pos hact]
    cases hp : parseSalaryNum j.salary <;> simp [salaryMatch, hp]

/-- C5 witness: with the active range 0..100000 a job whose salary parses to
100000 passes the salary predicate. -/
theorem salary_range_spec_witness : salaryPasses fNarrow jobHund = true :=
  ((salary_range_spec fNarrow jobHund).2 (by decide)).mpr
    ⟨100000, by decide, by decide, by decide⟩

/-- C5 counterexample: the range 0..600000 differs from the default but the
guard treats it as inactive: a job whose salary parses to 700000, outside the
range, is still returned. -/
theorem salary_range_cex :
    f600.salary ≠ ((0 : Nat), (500000 : Nat)) ∧
    applyFiltersAndSort [job700k] f600 "" "" lcLen = [job700k] ∧
    ¬ salaryKeyD job700k ≤ f600.salary.2 := by decide

/-- C6: assuming the locale comparison is sign-antisymmetric and transitive
(as ECMAScript requires of `localeCompare`), the `alphabetical` output is
ascending by title under that comparison and permutes the filtered list;
sorting is stable under every sort option: the alphabetical sort preserves
every title tie class, both salary sorts preserve every parsed-salary tie
class, and every other option returns the filtered list unchanged. -/
theorem alphabetical_sort_spec (lc : String → String → Int)
    (hasym : ∀ s t, lc s t < 0 ↔ 0 < lc t s)
    (htrans : ∀ s t u, lc s t ≤ 0 → lc t u ≤ 0 → lc s u ≤ 0)
    (jobs : List Job) (f : FilterState) (q : String) :
    (applyFiltersAndSort jobs f q "alphabetical" lc).Pairwise
        (fun a b => lc a.title b.title ≤ 0) ∧
    (applyFiltersAndSort jobs f q "alphabetical" lc).Perm (applyFilters jobs f q) ∧
    (∀ t : String,
      (applyFiltersAndSort jobs f q "alphabetical" lc).filter
          (fun j => decide (lc j.title t = 0))
        = (applyFilters jobs f q).filter (fun j => decide (lc j.title t = 0))) ∧
    (∀ v : Option Nat,
      (applyFiltersAndSort jobs f q "salary-high-low" lc).filter
          (fun j => decide (parseSalaryNum j.salary = v))
        = (applyFilters jobs f q).filter
            (fun j => decide (parseSalaryNum j.salary = v)) ∧
      (applyFiltersAndSort jobs f q "salary-low-high" lc).filter
          (fun j => decide (parseSalaryNum j.salary = v))
        = (applyFilters jobs f q).filter
            (fun j => decide (parseSalaryNum j.salary = v))) ∧
    (∀ so : String, so ≠ "alphabetical" → so ≠ "salary-high-low" →
      so ≠ "salary-low-high" →
      applyFiltersAndSort jobs f q so lc = applyFilters jobs f q) := by
  have hA := lcCmp_A lc hasym
  have hB := lcCmp_B lc hasym htrans
  refine ⟨?_, ?_, ?_, ?_, ?_⟩
  · rw [applyFiltersAndSort, applySort_alpha]
    exact jsSort_pairwise hA hB _
  · rw [applyFiltersAndSort]
    exact applySort_perm lc _ _
  · intro t
    rw [applyFiltersAndSort, applySort_alpha]
    exact jsSort_filter hA hB (lcCmp_class lc hasym htrans t)
      (lcCmp_F lc hasym htrans t) _
  · intro v
    rw [applyFiltersAndSort, applyFiltersAndSort, applySort_hl, applySort_lh]
    exact ⟨jsSort_filter cmpHighLow_A cmpHighLow_B (cmpHighLow_class v)
             (cmpHighLow_F v) _,
           jsSort_filter cmpLowHigh_A cmpLowHigh_B (cmpLowHigh_class v)
             (cmpLowHigh_F v) _⟩
  · intro so h1 h2 h3
    rw [applyFiltersAndSort, applySort_other lc so h1 h2 h3]

/-- The length comparator is sign-antisymmetric. -/
theorem lcLen_asym : ∀ s t : String, lcLen s t < 0 ↔ 0 < lcLen t s := by
  intro s t
  unfold lcLen
  omega

/-- The length comparator is transitive on weak wins. -/
theorem lcLen_trans :
    ∀ s t u : String, lcLen s t ≤ 0 → lcLen t u ≤ 0 → lcLen s u ≤ 0 := by
  intro s t u
  unfold lcLen
  omega

/-- C6 witness: with the concrete length comparator, the alphabetical output
on a concrete list is ascending under that comparator. -/
theorem alphabetical_sort_spec_witness :
    (applyFiltersAndSort [jobHund, jobFifty] defaultFilters ""
        "alphabetical" lcLen).Pairwise
      (fun a b => lcLen a.title b.title ≤ 0) :=
  (alphabetical_sort_spec lcLen lcLen_asym lcLen_trans
    [jobHund, jobFifty] defaultFilters "").1

/-- C10 (amended): whenever the salary filter is active, a job whose salary
is present, nonempty and digitless is excluded from the output regardless of
the bounds, because its parse is NaN and NaN satisfies neither range
comparison.  A present but empty salary string is falsy and is instead
treated as 0. -/
theorem nodigit_excluded (jobs : List Job) (f : FilterState) (q so : String)
    (lc : String → String → Int) (j : Job) (s : String)
    (hact : 0 < f.salary.1 ∨ f.salary.2 < 500000)
    (hs : j.salary = some s) (hne : s ≠ "")
    (hnd : ∀ c ∈ s.data, c.isDigit = false) :
    j ∉ applyFiltersAndSort jobs f q so lc := by
  intro hmem
  rw [applyFiltersAndSort, (applySort_perm lc so _).mem_iff, applyFilters_eq,
      List.mem_filter] at hmem
  have hpass : passesAll f q j = true := hmem.2
  simp only [passesAll, Bool.and_eq_true] at hpass
  have hsal : salaryPasses f j = true := by tauto
  have hstrip : stripDigits s = "" := by
    unfold stripDigits
    have h0 : s.data.filter (fun c => c.isDigit) = [] :=
      List.filter_eq_nil_iff.mpr (by
        intro c hc
        simp [hnd c hc])
    rw [h0]
  have hparse : parseSalaryNum j.salary = none := by
    rw [hs]
    simp [parseSalaryNum, hne, hstrip]
  unfold salaryPasses at hsal
  rw [if_pos hact] at hsal
  simp [salaryMatch, hparse] at hsal

/-- C10 witness: the digitless-salary job is excluded under the active range
0..100000. -/
theorem nodigit_excluded_witness :
    jobND ∉ applyFiltersAndSort [jobND] fNarrow "" "" lcLen :=
  nodigit_excluded [jobND] fNarrow "" "" lcLen jobND "TBD"
    (by decide) (by decide) (by decide) (by decide)

/-- C10 counterexample: a present but EMPTY salary string is falsy, parses to
0 instead of NaN, and with an active range whose minimum is 0 the job is kept
— contradicting the claim that every present digitless salary is excluded. -/
theorem nodigit_cex :
    (0 < fNarrow.salary.1 ∨ fNarrow.salary.2 < 500000) ∧
    jobEmptySal.salary = some "" ∧
    (∀ c ∈ ("" : String).data, c.isDigit = false) ∧
    applyFiltersAndSort [jobEmptySal] fNarrow "" "" lcLen = [jobEmptySal] := by
  decide
